import Mathlib

/-!
Verification development for the GA-based neural-architecture-search program
`vowel_classifier_ga.py`.  The Python program's data model is shallowly
embedded: a gene is a Python dict (an association list with distinct keys),
values are the Python values the program stores in genes, and fallible
operations (dict lookups that can raise `KeyError`, divisions that can raise
`ZeroDivisionError`) return `Option`.
-/

/-- A Python value as stored in a gene dict: `None`, an `int`, a `str`,
or a `float` (modelled as a rational). -/
inductive Value where
  | vnone : Value
  | nat : Nat → Value
  | str : String → Value
  | rat : ℚ → Value
deriving DecidableEq

/-- Python truthiness of a `Value` (`if gene["dropout_rate"]:`):
`None`, `0`, `""`, `0.0` are falsy, everything else truthy. -/
def Value.truthy : Value → Bool
  | .vnone => false
  | .nat n => n ≠ 0
  | .str s => s ≠ ""
  | .rat q => q ≠ 0

/-- A gene: a Python dict from attribute names to values, kept in insertion
order.  Well-formed genes have distinct keys (Python dicts cannot repeat a
key). -/
abbrev Gene := List (String × Value)

/-- A genome: ordered list of genes, as in the source. -/
abbrev Genome := List Gene

/-- One layer of the constructed `nn.Sequential`. -/
inductive Layer where
  | linear : Nat → Nat → Layer
  | relu : Layer
  | leaky_relu : Layer
  | sigmoid : Layer
  | tanh : Layer
  | dropout : Value → Layer
deriving DecidableEq

/-- The keys every gene produced by the program carries, in insertion order. -/
def geneKeys : List String := ["num_neurons", "activation", "dropout_rate"]

/-- A gene is well-formed when its key list is a permutation of the three
attribute keys (so: a Python dict carrying exactly those keys). -/
def wfGene (g : Gene) : Prop := (g.map Prod.fst).Perm geneKeys

instance (g : Gene) : Decidable (wfGene g) := by
  unfold wfGene; infer_instance

/-- The `nn.Dropout(p)` constructor: requires a numeric `p` with
`0 ≤ p ≤ 1`, raising `ValueError` for a probability out of range and
`TypeError` for a non-numeric argument (both modelled by `none`). -/
def dropoutLayer : Value → Option Layer
  | .rat q => if 0 ≤ q ∧ q ≤ 1 then some (.dropout (.rat q)) else none
  | .nat n => if n ≤ 1 then some (.dropout (.nat n)) else none
  | _ => none

/-- One iteration of the hidden-layer loop of `Net.__init__`: the layers a
single gene contributes, and the updated feature width.  `none` models a
raised exception (`KeyError` on a missing key, `TypeError` when
`num_neurons` is not an `int`, `ValueError`/`TypeError` from
`nn.Dropout` on an invalid dropout probability). -/
def geneLayers (gene : Gene) (input_features : Nat) : Option (List Layer × Nat) := do
  let nVal ← gene.lookup "num_neurons"
  let n ← match nVal with | .nat m => some m | _ => none
  let act ← gene.lookup "activation"
  let actLayers : List Layer :=
    if act = .str "relu" then [.relu]
    else if act = .str "leaky_relu" then [.leaky_relu]
    else if act = .str "sigmoid" then [.sigmoid]
    else if act = .str "tanh" then [.tanh]
    else []
  let dr ← gene.lookup "dropout_rate"
  let dropLayers ← if dr.truthy then (dropoutLayer dr).map (fun l => [l]) else some []
  return (Layer.linear input_features n :: (actLayers ++ dropLayers), n)

/-- The hidden-layer loop of `Net.__init__` over the whole genome: the
accumulated layer list and the final feature width. -/
def hiddenLayers : Genome → Nat → Option (List Layer × Nat)
  | [], input_features => some ([], input_features)
  | gene :: rest, input_features => do
    let (ls, w) ← geneLayers gene input_features
    let (rs, out) ← hiddenLayers rest w
    return (ls ++ rs, out)

/-- `Net.__init__(genome, D, K)`: hidden layers from the genome, then the
final `nn.Linear(input_features, K)` output layer. -/
def netLayers (genome : Genome) (D K : Nat) : Option (List Layer) := do
  let (ls, w) ← hiddenLayers genome D
  return ls ++ [Layer.linear w K]

/-! ### The layer sequence the specification describes (for claim C1) -/

/-- A gene as the specification describes it: the three attributes,
with `dropout_rate` optional (null or a dropout probability). -/
structure GeneSpec where
  num_neurons : Nat
  activation : String
  dropout_rate : Option ℚ
deriving DecidableEq

/-- Modelled from the spec: the named activation nonlinearity of a gene
(meaningful only for the four activation names the spec's Builder knows). -/
def specActLayer (a : String) : Layer :=
  if a = "relu" then .relu
  else if a = "leaky_relu" then .leaky_relu
  else if a = "sigmoid" then .sigmoid
  else .tanh

/-- Modelled from the spec: the exact layer sequence the specification
prescribes — per gene a fully-connected layer from the current width to
`num_neurons`, the named activation, a dropout layer iff `dropout_rate` is
non-null; then one final fully-connected layer from the last width to `K`. -/
def specLayers : List GeneSpec → Nat → Nat → List Layer
  | [], w, K => [Layer.linear w K]
  | g :: rest, w, K =>
    Layer.linear w g.num_neurons :: specActLayer g.activation ::
      ((match g.dropout_rate with
        | some q => [Layer.dropout (.rat q)]
        | none => []) ++ specLayers rest g.num_neurons K)

/-- A dict gene realises a spec gene: the three lookups return the spec
gene's attributes, the activation is one of the four the Builder handles,
and the dropout rate is null or a probability in `(0,1)`. -/
def represents (g : Gene) (s : GeneSpec) : Prop :=
  g.lookup "num_neurons" = some (.nat s.num_neurons) ∧
  g.lookup "activation" = some (.str s.activation) ∧
  s.activation ∈ ["relu", "leaky_relu", "sigmoid", "tanh"] ∧
  ((s.dropout_rate = none ∧ g.lookup "dropout_rate" = some .vnone) ∨
    (∃ q : ℚ, s.dropout_rate = some q ∧ g.lookup "dropout_rate" = some (.rat q) ∧
      0 < q ∧ q < 1))

/-! ### Randomness model

The program draws from Python's `random` module.  We model the module as
oracle streams indexed by an advancing draw counter: `coin` answers
`random.choice([True, False])`, `flt` answers `random.random()` (a float in
`[0,1)`), and `idx` supplies the index draws behind `random.choice(lst)`
and `random.sample`. -/

structure RNG where
  coin : Nat → Bool
  flt : Nat → ℚ
  idx : Nat → Nat

/-- `random.choice(lst)` at draw position `t`. -/
def RNG.choice (rng : RNG) (lst : List Value) (t : Nat) : Value :=
  lst.getD (rng.idx t % lst.length) .vnone

/-- The inner loop of `crossover` over one gene position: iterate the keys of
`gene1`; per key flip a coin, on heads take `gene1`'s value, on tails take
`gene2[key]` (whose failure — `KeyError` — is modelled by `none`).  Returns
the child gene and the advanced draw counter. -/
def crossoverGene (rng : RNG) (gene2 : Gene) : List (String × Value) → Nat → Option Gene × Nat
  | [], t => (some [], t)
  | (key, v1) :: rest, t =>
    match (if rng.coin t then some v1 else gene2.lookup key : Option Value) with
    | none => (none, t + 1)
    | some v =>
      match crossoverGene rng gene2 rest (t + 1) with
      | (none, t') => (none, t')
      | (some child_gene, t') => (some ((key, v) :: child_gene), t')

/-- The outer loop of `crossover`: `for gene1, gene2 in zip(parent1, parent2)`. -/
def crossoverPairs (rng : RNG) : List (Gene × Gene) → Nat → Option Genome × Nat
  | [], t => (some [], t)
  | (gene1, gene2) :: rest, t =>
    match crossoverGene rng gene2 gene1 t with
    | (none, t') => (none, t')
    | (some child_gene, t') =>
      match crossoverPairs rng rest t' with
      | (none, t'') => (none, t'')
      | (some child, t'') => (some (child_gene :: child), t'')

/-- `crossover(parent1, parent2)`: uniform crossover per gene position, per
attribute key, pairing the parents' genes with `zip`. -/
def crossover (rng : RNG) (parent1 parent2 : Genome) (t : Nat) : Option Genome × Nat :=
  crossoverPairs rng (parent1.zip parent2) t

/-- The fixed mutation candidate set for `num_neurons`. -/
def num_neurons_choices : List Value := [.nat 4, .nat 8, .nat 16, .nat 32]

/-- The fixed mutation candidate set for `activation`. -/
def activation_choices : List Value :=
  [.str "relu", .str "sigmoid", .str "tanh", .str "softmax"]

/-- The fixed mutation candidate set for `dropout_rate`. -/
def dropout_choices : List Value := [.vnone, .rat (1/10), .rat (2/10), .rat (3/10)]

/-- The mutation candidate set an attribute key is resampled from. -/
def candidateSet : String → List Value
  | "num_neurons" => num_neurons_choices
  | "activation" => activation_choices
  | "dropout_rate" => dropout_choices
  | _ => []

/-- One key of the `for key, _ in gene.items()` dispatch of `mutate`: the
replacement value for that key (a draw from its candidate set, or the old
value when the key is none of the three) and the advanced draw counter. -/
def mutateKeyDraw (rng : RNG) (key : String) (v : Value) (t : Nat) : Value × Nat :=
  if key = "num_neurons" then (rng.choice num_neurons_choices t, t + 1)
  else if key = "activation" then (rng.choice activation_choices t, t + 1)
  else if key = "dropout_rate" then (rng.choice dropout_choices t, t + 1)
  else (v, t)

/-- The inner loop of `mutate` on a gene selected for mutation
(`for key, _ in gene.items()`): resample each of the three attributes from
its candidate set, in place; other keys are left untouched. -/
def mutateGeneKeys (rng : RNG) : List (String × Value) → Nat → List (String × Value) × Nat
  | [], t => ([], t)
  | (key, v) :: rest, t =>
    let (rest', t'') := mutateGeneKeys rng rest (mutateKeyDraw rng key v t).2
    ((key, (mutateKeyDraw rng key v t).1) :: rest', t'')

/-- `mutate` generalised over the mutation rate (the source hardcodes
`mutation_rate = 0.1` in its body; the spec presents the rate as a parameter
defaulting to 0.1): per gene, if `random.random() < mutation_rate`, resample
all of the gene's attributes from the candidate sets. -/
def mutateRated (rng : RNG) (mutation_rate : ℚ) : Genome → Nat → Genome × Nat
  | [], t => ([], t)
  | gene :: rest, t =>
    let (gene', t') :=
      if rng.flt t < mutation_rate then mutateGeneKeys rng gene (t + 1)
      else (gene, t + 1)
    let (rest', t'') := mutateRated rng mutation_rate rest t'
    (gene' :: rest', t'')

/-- `mutate(genome)` as in the source, with its hardcoded `mutation_rate = 0.1`. -/
def mutate (rng : RNG) (genome : Genome) (t : Nat) : Genome × Nat :=
  mutateRated rng (1/10) genome t

/-- A gene whose three attributes all carry values from the fixed mutation
candidate sets. -/
def resampled (g : Gene) : Prop :=
  ∀ k ∈ geneKeys, ∃ v ∈ candidateSet k, g.lookup k = some v

/-- The sorted pair list inside `selection`:
`sorted(zip(fitnesses, population), key=lambda x: x[0], reverse=True)`.
Python's `sorted` is documented stable, also with `reverse=True`, and
compares only the key, so this is a stable merge sort by fitness
descending. -/
def sortedPairs (population : List Genome) (fitnesses : List ℚ) : List (ℚ × Genome) :=
  (fitnesses.zip population).mergeSort (fun a b => decide (b.1 ≤ a.1))

/-- `selection(population, fitnesses, num_parents)`: the genomes of the
sorted pair list (`[individual for _, individual in sorted(...)]`), truncated
to the top `num_parents`. -/
def selection (population : List Genome) (fitnesses : List ℚ) (num_parents : Nat) :
    List Genome :=
  ((sortedPairs population fitnesses).map Prod.snd).take num_parents

/-- The best-tracker update of one generation of the orchestrator loop:
`best_fitness_this_gen = max(fitnesses)` (whose `ValueError` on an empty
list is modelled by `none`), `max_fitness_idx = fitnesses.index(max(...))`,
`best_architecture_this_gen = population[max_fitness_idx]`, and replacement
of the overall tracker only on strict improvement.  `float("-inf")` is `⊥`
of `WithBot ℚ`. -/
def generationStep (best : WithBot ℚ × Option Genome)
    (fitnesses : List ℚ) (population : List Genome) :
    Option (WithBot ℚ × Option Genome) := do
  let best_fitness_this_gen ← fitnesses.max?
  let best_architecture_this_gen ← population[fitnesses.indexOf best_fitness_this_gen]?
  if (best_fitness_this_gen : WithBot ℚ) > best.1 then
    return ((best_fitness_this_gen : WithBot ℚ), some best_architecture_this_gen)
  else
    return best

/-- The orchestrator's best-overall tracking across its generation loop,
starting from `best_overall_fitness = float("-inf")`,
`best_overall_architecture = None`, folded over the per-generation
(fitness list, population) pairs. -/
def runTracker (gens : List (List ℚ × List Genome)) :
    Option (WithBot ℚ × Option Genome) :=
  gens.foldlM (fun best g => generationStep best g.1 g.2) ((⊥ : WithBot ℚ), none)

/-- `max` of an extended fitness and a plain fitness value. -/
def wMax (acc : WithBot ℚ) (q : ℚ) : WithBot ℚ := max acc ↑q

/-- `random.sample(parents, 2)` at draw position `t`: two distinct positions
into a list of length `n` (`none` models the `ValueError` when `n < 2`).
The first position is drawn uniformly from the `n` slots, the second from
the `n - 1` remaining slots. -/
def sample2 (rng : RNG) (n : Nat) (t : Nat) : Option ((Nat × Nat) × Nat) :=
  if n < 2 then none
  else
    let i := rng.idx t % n
    let j0 := rng.idx (t + 1) % (n - 1)
    some ((i, if j0 < i then j0 else j0 + 1), t + 2)

/-- The orchestrator's breeding loop
(`while len(next_generation) < population_size`): sample a pair of distinct
parents, cross them, mutate the child in place, append it. -/
def breedLoop (rng : RNG) (parents : List Genome) (population_size : Nat) :
    List Genome → Nat → Option (List Genome × Nat)
  | next_generation, t =>
    if _h : next_generation.length < population_size then
      match sample2 rng parents.length t with
      | none => none
      | some ((i, j), t₁) =>
        match crossover rng (parents.getD i []) (parents.getD j []) t₁ with
        | (none, _) => none
        | (some child0, t₂) =>
          breedLoop rng parents population_size
            (next_generation ++ [(mutate rng child0 t₂).1]) ((mutate rng child0 t₂).2)
    else some (next_generation, t)
termination_by ng _ => population_size - ng.length
decreasing_by simp [List.length_append]; omega

/-- `Breed`: `next_generation = parents[:]` (elitist carry-over), then the
breeding loop restores the population size. -/
def nextGeneration (rng : RNG) (parents : List Genome) (population_size t : Nat) :
    Option (List Genome × Nat) :=
  breedLoop rng parents population_size parents t

/-- A child bred by one iteration of the breeding loop: the in-place
mutation of a crossover of two parents sampled at distinct positions. -/
def bredFrom (rng : RNG) (parents : List Genome) (c : Genome) : Prop :=
  ∃ i j t₁ t₂ child0, i < parents.length ∧ j < parents.length ∧ i ≠ j ∧
    crossover rng (parents.getD i []) (parents.getD j []) t₁ = (some child0, t₂) ∧
    c = (mutate rng child0 t₂).1

/-! ### A heap model of breeding (claim C9)

Python genes are mutable dict objects, so whether the in-place `mutate` after
`crossover` can corrupt the selected parents is an aliasing question.  Here
the heap is explicit: a store of gene dicts, and genomes are lists of
addresses into it.  `crossover` reads the parents' dicts and allocates each
`child_gene = {}` dict fresh at the end of the store; `mutate` overwrites the
dicts at its argument's addresses in place. -/

/-- The heap of gene dicts; an address is an index into it. -/
abbrev Store := List Gene

/-- Heap-level gene loop of `crossover`: per pair of parent-gene addresses,
read both dicts, build the child gene by per-key coin flips, and allocate it
fresh at the end of the store, returning the child's addresses in order. -/
def crossoverH (rng : RNG) :
    Store → List (Nat × Nat) → Nat → Option (Store × List Nat × Nat)
  | store, [], t => some (store, [], t)
  | store, (a1, a2) :: rest, t =>
    match store[a1]?, store[a2]? with
    | some gene1, some gene2 =>
      match crossoverGene rng gene2 gene1 t with
      | (none, _) => none
      | (some child_gene, t') =>
        match crossoverH rng (store ++ [child_gene]) rest t' with
        | none => none
        | some (store', addrs, t'') => some (store', store.length :: addrs, t'')
    | _, _ => none

/-- Heap-level `mutate`: for each addressed gene dict, with probability 0.1
(the source's hardcoded rate) overwrite it in place with its resampled
version. -/
def mutateH (rng : RNG) : Store → List Nat → Nat → Option (Store × Nat)
  | store, [], t => some (store, t)
  | store, a :: rest, t =>
    match store[a]? with
    | none => none
    | some gene =>
      if rng.flt t < 1/10 then
        mutateH rng (store.set a (mutateGeneKeys rng gene (t + 1)).1) rest
          ((mutateGeneKeys rng gene (t + 1)).2)
      else
        mutateH rng store rest (t + 1)

/-- Heap-level breeding loop: children are built by `crossoverH` over the
zipped parent addresses and then mutated in place by `mutateH`. -/
def breedLoopH (rng : RNG) (parents : List (List Nat)) (population_size : Nat) :
    Store → List (List Nat) → Nat → Option (Store × List (List Nat) × Nat)
  | store, next_generation, t =>
    if _h : next_generation.length < population_size then
      match sample2 rng parents.length t with
      | none => none
      | some ((i, j), t₁) =>
        match crossoverH rng store ((parents.getD i []).zip (parents.getD j [])) t₁ with
        | none => none
        | some (store₁, childAddrs, t₂) =>
          match mutateH rng store₁ childAddrs t₂ with
          | none => none
          | some (store₂, t₃) =>
            breedLoopH rng parents population_size store₂
              (next_generation ++ [childAddrs]) t₃
    else some (store, next_generation, t)
termination_by _ ng _ => population_size - ng.length
decreasing_by simp [List.length_append]; omega

/-! ### `compute_fitness`

Tensors are lists of rationals; a batch pairs feature rows with one-hot
target rows.  The torch pieces that carry real-valued training state —
`Net`'s freshly initialised parameters, the Adam optimizer step
(`loss.backward(); optimizer.step()`) and the forward pass — enter the
embedding as opaque parameters `netInit`, `trainStep`, `forward` over an
arbitrary model type, so the loop and counting structure of
`compute_fitness` is exactly the source's. -/

/-- A batch of the data loader: feature rows and one-hot target rows. -/
abbrev Batch := List (List ℚ) × List (List ℚ)

/-- `row.argmax()`: index of the first occurrence of the maximum
(torch returns the first maximal index; meaningless for an empty row,
which torch rejects — arbitrarily 0 here). -/
def argmaxIdx (row : List ℚ) : Nat :=
  match row.max? with
  | some m => row.indexOf m
  | none => 0

/-- One training batch of `compute_fitness`: compute the batch outputs and
loss with the current model (`output = model(data);
loss = criterion(output, target)`), apply one optimizer step
(`loss.backward(); optimizer.step()`), accumulate `epoch_loss`. -/
def batchStep {Model : Type} (forward : Model → List ℚ → List ℚ)
    (trainStep : Model → Batch → Model)
    (criterion : List (List ℚ) → List (List ℚ) → ℚ)
    (st : Model × ℚ) (batch : Batch) : Model × ℚ :=
  let output := batch.1.map (forward st.1)
  let loss := criterion output batch.2
  (trainStep st.1 batch, st.2 + loss)

/-- One epoch of the training loop of `compute_fitness`
(`for batch_idx, (data, target) in enumerate(train_loader)`), followed by
the epoch's log line `average_epoch_loss = epoch_loss / total_batches` with
`total_batches = len(train_loader)`: on an empty train loader that division
raises `ZeroDivisionError`, modelled by `none`. -/
def trainOneEpoch {Model : Type} (forward : Model → List ℚ → List ℚ)
    (trainStep : Model → Batch → Model)
    (criterion : List (List ℚ) → List (List ℚ) → ℚ)
    (train_loader : List Batch) (model : Model) : Option (Model × ℚ) :=
  let st := train_loader.foldl (batchStep forward trainStep criterion) (model, 0)
  if train_loader.length = 0 then none
  else some st

/-- The epoch loop of `compute_fitness` (`for epoch in range(epochs)`),
threading the model and `total_loss` (the losses are only logged; a
`ZeroDivisionError` inside an epoch aborts the whole call). -/
def trainLoop {Model : Type} (forward : Model → List ℚ → List ℚ)
    (trainStep : Model → Batch → Model)
    (criterion : List (List ℚ) → List (List ℚ) → ℚ)
    (train_loader : List Batch) : Nat → Model × ℚ → Option (Model × ℚ)
  | 0, st => some st
  | e + 1, st => do
    let epoch ← trainOneEpoch forward trainStep criterion train_loader st.1
    trainLoop forward trainStep criterion train_loader e (epoch.1, st.2 + epoch.2)

/-- The model after one full pass over the training batches: one optimizer
step per batch, in order. -/
def onePassModel {Model : Type} (trainStep : Model → Batch → Model)
    (train_loader : List Batch) (m : Model) : Model :=
  train_loader.foldl trainStep m

/-- The evaluation loop of `compute_fitness`: per validation batch,
`pred = output.argmax(dim=1)`, `target = target.argmax(dim=1)`,
`correct += pred.eq(target).sum().item()`, `total += target.size(0)`. -/
def evalCounts {Model : Type} (forward : Model → List ℚ → List ℚ) (model : Model) :
    List Batch → Nat × Nat → Nat × Nat
  | [], ct => ct
  | batch :: rest, ct =>
    let output := batch.1.map (forward model)
    let pred := output.map argmaxIdx
    let target := batch.2.map argmaxIdx
    evalCounts forward model rest
      (ct.1 + ((pred.zip target).countP fun p => p.1 == p.2), ct.2 + batch.2.length)

/-- `compute_fitness(genome, train_loader, test_loader, criterion, lr,
epochs, D, K)`: build a fresh model from the genome, train it for `epochs`
passes over `train_loader` (a `ZeroDivisionError` in the per-epoch average
log line aborts), evaluate on `test_loader`, and return `correct / total`
(`none` also models the `ZeroDivisionError` when the validation set holds
no samples). -/
def compute_fitness {Model : Type} (netInit : Genome → Nat → Nat → Model)
    (trainStep : Model → Batch → Model)
    (forward : Model → List ℚ → List ℚ)
    (criterion : List (List ℚ) → List (List ℚ) → ℚ)
    (genome : Genome) (train_loader test_loader : List Batch)
    (epochs : Nat) (D K : Nat) : Option ℚ := do
  let model := netInit genome D K
  let trained ← trainLoop forward trainStep criterion train_loader epochs (model, 0)
  let counts := evalCounts forward trained.1 test_loader (0, 0)
  if counts.2 = 0 then none else some ((counts.1 : ℚ) / (counts.2 : ℚ))

/-- The maximum fitness observed anywhere in a run segment, from `-inf`. -/
def maxFitSoFar (gens : List (List ℚ × List Genome)) : WithBot ℚ :=
  ((gens.map Prod.fst).flatten).foldl wMax ⊥

/-- The layers a gene contributes, given the spec gene it realises. -/
lemma geneLayers_of_represents {g : Gene} {s : GeneSpec} (h : represents g s) (D : Nat) :
    geneLayers g D = some (Layer.linear D s.num_neurons :: specActLayer s.activation ::
      (match s.dropout_rate with
       | some q => [Layer.dropout (.rat q)]
       | none => []), s.num_neurons) := by
  obtain ⟨hn, ha, hmem, hdr⟩ := h
  simp only [List.mem_cons, List.not_mem_nil, or_false] at hmem
  rcases hdr with ⟨hno, hlk⟩ | ⟨q, hq, hlk, hq0, hq1⟩
  · rcases hmem with h4 | h4 | h4 | h4 <;>
      simp [geneLayers, hn, ha, hlk, h4, hno, specActLayer, Value.truthy]
  · rcases hmem with h4 | h4 | h4 | h4 <;>
      simp [geneLayers, hn, ha, hlk, h4, hq, specActLayer, Value.truthy, hq0.ne',
        dropoutLayer, hq0.le, hq1.le]

/-- C1: for every genome realising a list of spec genes (each gene carrying
`num_neurons`, a known activation name, and a null-or-in-(0,1) dropout rate)
and every `D ≥ 1`, `K ≥ 1`, `Net.__init__` constructs exactly the layer
sequence the specification prescribes: per gene a fully-connected layer from
the current width to `num_neurons`, the named activation, a dropout layer iff
`dropout_rate` is non-null, width updated to `num_neurons`; then a final
fully-connected layer from the last width to `K`.  In particular the empty
genome yields the single direct `D → K` fully-connected layer. -/
theorem c1_net_builds_spec_layer_sequence (genome : Genome) (gs : List GeneSpec)
    (D K : Nat) (hD : 1 ≤ D) (hK : 1 ≤ K) (h : List.Forall₂ represents genome gs) :
    netLayers genome D K = some (specLayers gs D K) ∧
    netLayers [] D K = some [Layer.linear D K] := by
  refine ⟨?_, by simp [netLayers, hiddenLayers]⟩
  clear hD hK
  induction h generalizing D with
  | nil => simp [netLayers, hiddenLayers, specLayers]
  | @cons g s genome' gs' hrep hrest ih =>
    have hgene := geneLayers_of_represents hrep D
    cases hh : hiddenLayers genome' s.num_neurons with
    | none =>
      have := ih s.num_neurons
      rw [netLayers, hh] at this
      simp at this
    | some p =>
      have hp : p.1 ++ [Layer.linear p.2 K] = specLayers gs' s.num_neurons K := by
        have := ih s.num_neurons
        simpa [netLayers, hh] using this
      simp [netLayers, hiddenLayers, hh, hgene, specLayers, ← hp]

/-- Witness for C1 at a concrete genome. -/
theorem c1_witness :
    netLayers [[("num_neurons", .nat 8), ("activation", .str "relu"),
        ("dropout_rate", .vnone)]] 3 4 =
      some (specLayers [⟨8, "relu", none⟩] 3 4) ∧
    netLayers [] 3 4 = some [Layer.linear 3 4] :=
  c1_net_builds_spec_layer_sequence
    [[("num_neurons", .nat 8), ("activation", .str "relu"), ("dropout_rate", .vnone)]]
    [⟨8, "relu", none⟩] 3 4 (by decide) (by decide)
    (List.Forall₂.cons ⟨by decide, by decide, by decide, Or.inl ⟨rfl, by decide⟩⟩
      List.Forall₂.nil)

/-- C8: a gene without the `dropout_rate` key makes `Net.__init__` fail
(`gene["dropout_rate"]` raises `KeyError`), contrary to the documented
contract that the key is optional: the build does not succeed with the
dropout transform simply omitted. -/
theorem c8_missing_dropout_key_fails :
    netLayers [[("num_neurons", .nat 4), ("activation", .str "relu")]] 1 1 = none := by
  decide

/-- C10: a gene whose activation name is none of `relu`, `leaky_relu`,
`sigmoid`, `tanh` (e.g. `softmax`) and whose dropout rate lies in the
spec's domain (null, or a probability in `(0,1)`) raises no error in
`Net.__init__` and contributes no activation layer at all: only its
fully-connected layer and (if non-null) its dropout layer, and a genome
made of such a gene still builds. -/
theorem c10_unknown_activation_silently_ignored (g : Gene) (n : Nat) (s : String)
    (dv : Value) (D K w : Nat)
    (hn : g.lookup "num_neurons" = some (.nat n))
    (ha : g.lookup "activation" = some (.str s))
    (hs : s ∉ ["relu", "leaky_relu", "sigmoid", "tanh"])
    (hd : g.lookup "dropout_rate" = some dv)
    (hdv : dv = .vnone ∨ ∃ q : ℚ, dv = .rat q ∧ 0 < q ∧ q < 1) :
    geneLayers g w =
      some (Layer.linear w n :: (if dv.truthy then [Layer.dropout dv] else []), n) ∧
    netLayers [g] D K =
      some (Layer.linear D n ::
        ((if dv.truthy then [Layer.dropout dv] else []) ++ [Layer.linear n K])) := by
  simp only [List.mem_cons, List.not_mem_nil, or_false, not_or] at hs
  obtain ⟨h1, h2, h3, h4⟩ := hs
  rcases hdv with rfl | ⟨q, rfl, hq0, hq1⟩
  · constructor <;>
      simp [geneLayers, netLayers, hiddenLayers, hn, ha, hd, h1, h2, h3, h4,
        Value.truthy]
  · constructor <;>
      simp [geneLayers, netLayers, hiddenLayers, hn, ha, hd, h1, h2, h3, h4,
        Value.truthy, hq0.ne', dropoutLayer, hq0.le, hq1.le]


lemma lookup_cons_self {k : String} {v : Value} {rest : List (String × Value)} :
    List.lookup k ((k, v) :: rest) = some v := by
  simp [List.lookup]

lemma lookup_cons_ne {k k0 : String} {v0 : Value} {rest : List (String × Value)}
    (h : k ≠ k0) : List.lookup k ((k0, v0) :: rest) = List.lookup k rest := by
  have hbeq : (k == k0) = false := by simp [h]
  simp [List.lookup, hbeq]

lemma mem_keys_cons_of_ne {k : String} {p : String × Value} {rest : List (String × Value)}
    (h : k ∈ (p :: rest).map Prod.fst) (hne : k ≠ p.1) : k ∈ rest.map Prod.fst := by
  rw [List.map_cons] at h
  rcases List.mem_cons.mp h with h' | h'
  · exact absurd h' hne
  · exact h'

lemma exists_lookup_of_mem_keys {l : List (String × Value)} {k : String}
    (h : k ∈ l.map Prod.fst) : ∃ v, l.lookup k = some v := by
  induction l with
  | nil => simp at h
  | cons p rest ih =>
    obtain ⟨k0, v0⟩ := p
    by_cases hk : k = k0
    · subst hk; exact ⟨v0, lookup_cons_self⟩
    · obtain ⟨v, hv⟩ := ih (mem_keys_cons_of_ne h hk)
      exact ⟨v, by rw [lookup_cons_ne hk, hv]⟩

/-- `crossoverGene` succeeds when `gene2` covers the keys of `gene1`, the
child has exactly `gene1`'s keys in order, and each key's value looks up to
the corresponding value of `gene1` or of `gene2`. -/
lemma crossoverGene_spec (rng : RNG) (g2 : Gene) (l : List (String × Value)) (t : Nat)
    (h : ∀ k ∈ l.map Prod.fst, ∃ v, g2.lookup k = some v) :
    ∃ cg t', crossoverGene rng g2 l t = (some cg, t') ∧
      cg.map Prod.fst = l.map Prod.fst ∧
      ∀ k ∈ l.map Prod.fst, cg.lookup k = l.lookup k ∨ cg.lookup k = g2.lookup k := by
  induction l generalizing t with
  | nil => exact ⟨[], t, rfl, rfl, by simp⟩
  | cons p rest ih =>
    obtain ⟨k0, v0⟩ := p
    obtain ⟨cg, t', heq, hkeys, hlk⟩ := ih (t + 1) (fun k hk => h k (by simp [hk]))
    by_cases hc : rng.coin t
    · refine ⟨(k0, v0) :: cg, t', by simp [crossoverGene, hc, heq], by simp [hkeys], ?_⟩
      intro k hk
      by_cases hk0 : k = k0
      · subst hk0; left; rw [lookup_cons_self, lookup_cons_self]
      · have hmem : k ∈ rest.map Prod.fst := mem_keys_cons_of_ne hk hk0
        rw [lookup_cons_ne hk0, lookup_cons_ne hk0]
        exact hlk k hmem
    · obtain ⟨v2, hv2⟩ := h k0 (by simp)
      refine ⟨(k0, v2) :: cg, t',
        by simp [crossoverGene, hc, hv2, heq], by simp [hkeys], ?_⟩
      intro k hk
      by_cases hk0 : k = k0
      · subst hk0; right; rw [lookup_cons_self, hv2]
      · have hmem : k ∈ rest.map Prod.fst := mem_keys_cons_of_ne hk hk0
        rw [lookup_cons_ne hk0, lookup_cons_ne hk0]
        exact hlk k hmem

/-- `crossoverPairs` succeeds on a list of gene pairs whose second components
cover the keys of the first, producing one child gene per pair. -/
lemma crossoverPairs_spec (rng : RNG) (pairs : List (Gene × Gene)) (t : Nat)
    (h : ∀ pq ∈ pairs, ∀ k ∈ pq.1.map Prod.fst, ∃ v, pq.2.lookup k = some v) :
    ∃ child t', crossoverPairs rng pairs t = (some child, t') ∧
      List.Forall₂ (fun (pq : Gene × Gene) (c : Gene) =>
        c.map Prod.fst = pq.1.map Prod.fst ∧
          ∀ k ∈ pq.1.map Prod.fst,
            c.lookup k = pq.1.lookup k ∨ c.lookup k = pq.2.lookup k) pairs child := by
  induction pairs generalizing t with
  | nil => exact ⟨[], t, rfl, .nil⟩
  | cons pq rest ih =>
    obtain ⟨g1, g2⟩ := pq
    obtain ⟨cg, t', heq, hkeys, hlk⟩ :=
      crossoverGene_spec rng g2 g1 t (h (g1, g2) (by simp))
    obtain ⟨child, t'', heq', hf⟩ := ih t' (fun pq hpq => h pq (by simp [hpq]))
    exact ⟨cg :: child, t'', by simp [crossoverPairs, heq, heq'],
      List.Forall₂.cons ⟨hkeys, hlk⟩ hf⟩

lemma wfGene_mem_keys {g : Gene} (hg : wfGene g) {k : String} (hk : k ∈ geneKeys) :
    k ∈ g.map Prod.fst := (hg.mem_iff).mpr hk

/-- C2: for parents whose genes all carry the attribute keys `num_neurons`,
`activation`, `dropout_rate`, `crossover` succeeds and returns a child of
length `min (len parent1) (len parent2)` — the parents' common length when
they are equally long, truncation to the shorter parent otherwise (pairwise
`zip`) — and at every gene position each attribute value of the child equals
the corresponding attribute of `parent1` or of `parent2`, never a third
value. -/
theorem c2_crossover_uniform_per_attribute (parent1 parent2 : Genome) (rng : RNG)
    (t : Nat) (h1 : ∀ g ∈ parent1, wfGene g) (h2 : ∀ g ∈ parent2, wfGene g) :
    ∃ child t', crossover rng parent1 parent2 t = (some child, t') ∧
      child.length = min parent1.length parent2.length ∧
      (parent1.length = parent2.length → child.length = parent1.length) ∧
      ∀ i, i < child.length → ∀ k ∈ geneKeys,
        (child.getD i []).lookup k = (parent1.getD i []).lookup k ∨
        (child.getD i []).lookup k = (parent2.getD i []).lookup k := by
  have hcov : ∀ pq ∈ parent1.zip parent2,
      ∀ k ∈ pq.1.map Prod.fst, ∃ v, pq.2.lookup k = some v := by
    intro pq hpq k hk
    obtain ⟨hm1, hm2⟩ := List.of_mem_zip hpq
    have hkeys : k ∈ geneKeys := ((h1 pq.1 hm1).mem_iff).mp hk
    exact exists_lookup_of_mem_keys (wfGene_mem_keys (h2 pq.2 hm2) hkeys)
  obtain ⟨child, t', heq, hf⟩ := crossoverPairs_spec rng (parent1.zip parent2) t hcov
  have hlen : child.length = min parent1.length parent2.length := by
    have := hf.length_eq
    simp only [List.length_zip] at this
    omega
  refine ⟨child, t', heq, hlen, fun _ => by omega, ?_⟩
  intro i hi k hk
  have hi1 : i < parent1.length := by omega
  have hi2 : i < parent2.length := by omega
  have hiz : i < (parent1.zip parent2).length := by
    simp only [List.length_zip]; omega
  have hR := (List.forall₂_iff_get.mp hf).2 i hiz (by omega)
  have hzip : (parent1.zip parent2).get ⟨i, hiz⟩ = (parent1[i], parent2[i]) := by
    simp [List.getElem_zip]
  rw [hzip] at hR
  have hwf1 : wfGene parent1[i] := h1 _ (List.getElem_mem hi1)
  have hmemk : k ∈ (parent1[i] : Gene).map Prod.fst := wfGene_mem_keys hwf1 hk
  have := hR.2 k hmemk
  rw [List.getD_eq_getElem child [] (by omega), List.getD_eq_getElem parent1 [] hi1,
    List.getD_eq_getElem parent2 [] hi2]
  simpa using this

/-- Witness for C2 at concrete parents. -/
theorem c2_witness :
    ∃ child t', crossover ⟨fun _ => true, fun _ => 0, fun _ => 0⟩
        [[("num_neurons", .nat 8), ("activation", .str "relu"), ("dropout_rate", .vnone)]]
        [[("num_neurons", .nat 16), ("activation", .str "tanh"), ("dropout_rate", .vnone)]]
        0 = (some child, t') ∧
      child.length = min 1 1 ∧
      (([[("num_neurons", Value.nat 8), ("activation", Value.str "relu"),
          ("dropout_rate", Value.vnone)]] : Genome).length =
        ([[("num_neurons", Value.nat 16), ("activation", Value.str "tanh"),
          ("dropout_rate", Value.vnone)]] : Genome).length → child.length = 1) ∧
      ∀ i, i < child.length → ∀ k ∈ geneKeys,
        (child.getD i []).lookup k =
          (([[("num_neurons", Value.nat 8), ("activation", Value.str "relu"),
              ("dropout_rate", Value.vnone)]] : Genome).getD i []).lookup k ∨
        (child.getD i []).lookup k =
          (([[("num_neurons", Value.nat 16), ("activation", Value.str "tanh"),
              ("dropout_rate", Value.vnone)]] : Genome).getD i []).lookup k :=
  c2_crossover_uniform_per_attribute
    [[("num_neurons", .nat 8), ("activation", .str "relu"), ("dropout_rate", .vnone)]]
    [[("num_neurons", .nat 16), ("activation", .str "tanh"), ("dropout_rate", .vnone)]]
    ⟨fun _ => true, fun _ => 0, fun _ => 0⟩ 0 (by decide) (by decide)

/-- Witness for C10 at a concrete softmax gene. -/
theorem c10_witness :
    geneLayers [("num_neurons", .nat 8), ("activation", .str "softmax"),
        ("dropout_rate", .vnone)] 3 =
      some (Layer.linear 3 8 ::
        (if (Value.vnone).truthy then [Layer.dropout .vnone] else []), 8) ∧
    netLayers [[("num_neurons", .nat 8), ("activation", .str "softmax"),
        ("dropout_rate", .vnone)]] 3 4 =
      some (Layer.linear 3 8 ::
        ((if (Value.vnone).truthy then [Layer.dropout .vnone] else []) ++
          [Layer.linear 8 4])) :=
  c10_unknown_activation_silently_ignored
    [("num_neurons", .nat 8), ("activation", .str "softmax"), ("dropout_rate", .vnone)]
    8 "softmax" .vnone 3 4 3 (by decide) (by decide) (by decide) (by decide)
    (Or.inl rfl)

lemma choice_mem (rng : RNG) {lst : List Value} (h : lst ≠ []) (t : Nat) :
    rng.choice lst t ∈ lst := by
  have hpos : 0 < lst.length := List.length_pos.mpr h
  have hlt : rng.idx t % lst.length < lst.length := Nat.mod_lt _ hpos
  rw [RNG.choice, List.getD_eq_getElem lst .vnone hlt]
  exact List.getElem_mem hlt

lemma mutateGeneKeys_cons (rng : RNG) (k0 : String) (v0 : Value)
    (rest : List (String × Value)) (t : Nat) :
    (mutateGeneKeys rng ((k0, v0) :: rest) t).1 =
      (k0, (mutateKeyDraw rng k0 v0 t).1) ::
        (mutateGeneKeys rng rest (mutateKeyDraw rng k0 v0 t).2).1 := by
  simp [mutateGeneKeys]

lemma mutateKeyDraw_mem (rng : RNG) {k0 : String} (hk : k0 ∈ geneKeys)
    (v0 : Value) (t : Nat) : (mutateKeyDraw rng k0 v0 t).1 ∈ candidateSet k0 := by
  simp only [geneKeys, List.mem_cons, List.not_mem_nil, or_false] at hk
  rcases hk with h' | h' | h' <;> subst h' <;>
    simp only [mutateKeyDraw, candidateSet, if_pos, if_neg, reduceIte] <;>
    exact choice_mem rng (by simp [num_neurons_choices, activation_choices,
      dropout_choices]) t

lemma mutateGeneKeys_lookup (rng : RNG) (l : List (String × Value)) (t : Nat)
    {k : String} (hk : k ∈ geneKeys) (hmem : k ∈ l.map Prod.fst) :
    ∃ v ∈ candidateSet k, ((mutateGeneKeys rng l t).1).lookup k = some v := by
  induction l generalizing t with
  | nil => simp at hmem
  | cons p rest ih =>
    obtain ⟨k0, v0⟩ := p
    rw [mutateGeneKeys_cons]
    by_cases hkk : k = k0
    · subst hkk
      exact ⟨(mutateKeyDraw rng k v0 t).1, mutateKeyDraw_mem rng hk v0 t,
        lookup_cons_self⟩
    · obtain ⟨v, hv, hl⟩ := ih (mutateKeyDraw rng k0 v0 t).2
        (mem_keys_cons_of_ne hmem hkk)
      exact ⟨v, hv, (lookup_cons_ne hkk).trans hl⟩

lemma mutateGeneKeys_resampled (rng : RNG) {g : Gene} (hw : wfGene g) (t : Nat) :
    resampled (mutateGeneKeys rng g t).1 := by
  intro k hk
  exact mutateGeneKeys_lookup rng g t hk (wfGene_mem_keys hw hk)

lemma mutateRated_length (rng : RNG) (r : ℚ) (l : Genome) (t : Nat) :
    ((mutateRated rng r l t).1).length = l.length := by
  induction l generalizing t with
  | nil => rfl
  | cons g rest ih =>
    by_cases hc : rng.flt t < r <;> simp [mutateRated, hc, ih]

lemma mutateRated_gene (rng : RNG) (r : ℚ) (l : Genome)
    (hw : ∀ g ∈ l, wfGene g) (t i : Nat) (hi : i < l.length) :
    ((mutateRated rng r l t).1).getD i [] = l.getD i [] ∨
      resampled (((mutateRated rng r l t).1).getD i []) := by
  induction l generalizing t i with
  | nil => simp at hi
  | cons g rest ih =>
    by_cases hc : rng.flt t < r
    · cases i with
      | zero =>
        right
        have : ((mutateRated rng r (g :: rest) t).1).getD 0 [] =
            (mutateGeneKeys rng g (t + 1)).1 := by
          simp [mutateRated, hc]
        rw [this]
        exact mutateGeneKeys_resampled rng (hw g (by simp)) (t + 1)
      | succ n =>
        have hn : n < rest.length := by simpa using hi
        have := ih (fun g' hg' => hw g' (by simp [hg'])) ((mutateGeneKeys rng g (t + 1)).2) n hn
        simpa [mutateRated, hc] using this
    · cases i with
      | zero => left; simp [mutateRated, hc]
      | succ n =>
        have hn : n < rest.length := by simpa using hi
        have := ih (fun g' hg' => hw g' (by simp [hg'])) (t + 1) n hn
        simpa [mutateRated, hc] using this

lemma mutateRated_zero (rng : RNG) (h0 : ∀ u, 0 ≤ rng.flt u) (l : Genome) (t : Nat) :
    (mutateRated rng 0 l t).1 = l := by
  induction l generalizing t with
  | nil => rfl
  | cons g rest ih =>
    have hnot : ¬ rng.flt t < 0 := not_lt.mpr (h0 t)
    simp [mutateRated, hnot, ih]

lemma mutateRated_one (rng : RNG) (h1 : ∀ u, rng.flt u < 1) (l : Genome)
    (hw : ∀ g ∈ l, wfGene g) (t i : Nat) (hi : i < l.length) :
    resampled (((mutateRated rng 1 l t).1).getD i []) := by
  induction l generalizing t i with
  | nil => simp at hi
  | cons g rest ih =>
    have hc : rng.flt t < 1 := h1 t
    cases i with
    | zero =>
      have : ((mutateRated rng 1 (g :: rest) t).1).getD 0 [] =
          (mutateGeneKeys rng g (t + 1)).1 := by
        simp [mutateRated, hc]
      rw [this]
      exact mutateGeneKeys_resampled rng (hw g (by simp)) (t + 1)
    | succ n =>
      have hn : n < rest.length := by simpa using hi
      have := ih (fun g' hg' => hw g' (by simp [hg'])) ((mutateGeneKeys rng g (t + 1)).2) n hn
      simpa [mutateRated, hc] using this

/-- C3: `mutate` preserves the genome's length; each gene of the result is
either exactly the corresponding input gene or has all three attributes
resampled from the fixed candidate sets `num_neurons ∈ {4,8,16,32}`,
`activation ∈ {relu, sigmoid, tanh, softmax}`,
`dropout_rate ∈ {None, 0.1, 0.2, 0.3}`; with mutation rate 0 the genome is
returned unchanged, and with mutation rate 1 every gene's three attributes
are redrawn from these sets. -/
theorem c3_mutate_per_gene (rng : RNG) (genome : Genome)
    (hflt : ∀ u, 0 ≤ rng.flt u ∧ rng.flt u < 1)
    (hw : ∀ g ∈ genome, wfGene g) :
    (∀ t, ((mutate rng genome t).1).length = genome.length) ∧
    (∀ t i, i < genome.length →
      ((mutate rng genome t).1).getD i [] = genome.getD i [] ∨
        resampled (((mutate rng genome t).1).getD i [])) ∧
    (∀ t, (mutateRated rng 0 genome t).1 = genome) ∧
    (∀ t i, i < genome.length →
      resampled (((mutateRated rng 1 genome t).1).getD i [])) := by
  refine ⟨fun t => mutateRated_length rng (1/10) genome t,
    fun t i hi => mutateRated_gene rng (1/10) genome hw t i hi,
    fun t => mutateRated_zero rng (fun u => (hflt u).1) genome t,
    fun t i hi => mutateRated_one rng (fun u => (hflt u).2) genome hw t i hi⟩

/-- Witness for C3 at a concrete genome and random stream. -/
theorem c3_witness :
    (∀ t, ((mutate ⟨fun _ => true, fun _ => 0, fun _ => 0⟩
        [[("num_neurons", .nat 8), ("activation", .str "relu"),
          ("dropout_rate", .vnone)]] t).1).length = 1) ∧
    (∀ t i, i < ([[("num_neurons", Value.nat 8), ("activation", Value.str "relu"),
        ("dropout_rate", Value.vnone)]] : Genome).length →
      ((mutate ⟨fun _ => true, fun _ => 0, fun _ => 0⟩
          [[("num_neurons", .nat 8), ("activation", .str "relu"),
            ("dropout_rate", .vnone)]] t).1).getD i [] =
        ([[("num_neurons", Value.nat 8), ("activation", Value.str "relu"),
          ("dropout_rate", Value.vnone)]] : Genome).getD i [] ∨
        resampled (((mutate ⟨fun _ => true, fun _ => 0, fun _ => 0⟩
          [[("num_neurons", .nat 8), ("activation", .str "relu"),
            ("dropout_rate", .vnone)]] t).1).getD i [])) ∧
    (∀ t, (mutateRated ⟨fun _ => true, fun _ => 0, fun _ => 0⟩ 0
        [[("num_neurons", .nat 8), ("activation", .str "relu"),
          ("dropout_rate", .vnone)]] t).1 =
      [[("num_neurons", .nat 8), ("activation", .str "relu"),
        ("dropout_rate", .vnone)]]) ∧
    (∀ t i, i < ([[("num_neurons", Value.nat 8), ("activation", Value.str "relu"),
        ("dropout_rate", Value.vnone)]] : Genome).length →
      resampled (((mutateRated ⟨fun _ => true, fun _ => 0, fun _ => 0⟩ 1
        [[("num_neurons", .nat 8), ("activation", .str "relu"),
          ("dropout_rate", .vnone)]] t).1).getD i [])) :=
  c3_mutate_per_gene ⟨fun _ => true, fun _ => 0, fun _ => 0⟩
    [[("num_neurons", .nat 8), ("activation", .str "relu"), ("dropout_rate", .vnone)]]
    (fun _ => ⟨le_refl 0, by norm_num⟩) (by decide)

/-- The descending comparison of `selection` is transitive. -/
lemma selLe_trans : ∀ a b c : ℚ × Genome,
    (fun a b : ℚ × Genome => decide (b.1 ≤ a.1)) a b = true →
    (fun a b : ℚ × Genome => decide (b.1 ≤ a.1)) b c = true →
    (fun a b : ℚ × Genome => decide (b.1 ≤ a.1)) a c = true := by
  intro a b c hab hbc
  simp only [decide_eq_true_eq] at hab hbc ⊢
  exact hbc.trans hab

/-- The descending comparison of `selection` is total. -/
lemma selLe_total : ∀ a b : ℚ × Genome,
    ((fun a b : ℚ × Genome => decide (b.1 ≤ a.1)) a b ||
      (fun a b : ℚ × Genome => decide (b.1 ≤ a.1)) b a) = true := by
  intro a b
  simp only [Bool.or_eq_true, decide_eq_true_eq]
  exact (le_total b.1 a.1)

/-- C4: with an aligned fitness list and `num_parents ≤ len(population)`,
`selection` returns exactly `num_parents` genomes; in the sorted pair list
every kept (top-`num_parents`) entry's fitness is ≥ every dropped entry's
fitness — so every returned genome's fitness is ≥ every non-selected
genome's; and for each fitness value the entries carrying it appear in their
original population order (stable sort by fitness descending). -/
theorem c4_selection_top_k_stable (population : List Genome) (fitnesses : List ℚ)
    (num_parents : Nat) (hlen : population.length = fitnesses.length)
    (hk : num_parents ≤ population.length) :
    (selection population fitnesses num_parents).length = num_parents ∧
    (∀ i j (hil : i < (sortedPairs population fitnesses).length)
        (hjl : j < (sortedPairs population fitnesses).length),
      i < num_parents → num_parents ≤ j →
      ((sortedPairs population fitnesses).get ⟨j, hjl⟩).1 ≤
        ((sortedPairs population fitnesses).get ⟨i, hil⟩).1) ∧
    (∀ q : ℚ,
      (sortedPairs population fitnesses).filter (fun p => decide (p.1 = q)) =
        (fitnesses.zip population).filter (fun p => decide (p.1 = q))) := by
  have hslen : (sortedPairs population fitnesses).length = population.length := by
    simp [sortedPairs, List.length_mergeSort, List.length_zip, hlen]
  refine ⟨?_, ?_, ?_⟩
  · simp only [selection, List.length_take, List.length_map]
    omega
  · intro i j hil hjl hi hj
    have hsorted := List.sorted_mergeSort selLe_trans selLe_total
      (fitnesses.zip population)
    have := (List.pairwise_iff_get.mp hsorted) ⟨i, hil⟩ ⟨j, hjl⟩ (by
      simp only [Fin.mk_lt_mk]; omega)
    simpa using this
  · intro q
    set c := (fitnesses.zip population).filter (fun p => decide (p.1 = q)) with hc
    have hcsub : c.Sublist (fitnesses.zip population) := List.filter_sublist _
    have hcmem : ∀ p ∈ c, p.1 = q := by
      intro p hp
      have := (List.mem_filter.mp hp).2
      simpa using this
    have hcpair : c.Pairwise
        (fun a b : ℚ × Genome => (fun a b : ℚ × Genome => decide (b.1 ≤ a.1)) a b = true) := by
      apply List.pairwise_of_forall_mem_list
      intro a ha b hb
      simp only [decide_eq_true_eq, hcmem a ha, hcmem b hb, le_refl]
    have hstab : c.Sublist (sortedPairs population fitnesses) :=
      List.sublist_mergeSort selLe_trans selLe_total hcpair hcsub
    have hcfix : c.filter (fun p => decide (p.1 = q)) = c := by
      apply List.filter_eq_self.mpr
      intro p hp
      simp [hcmem p hp]
    have hsub2 : c.Sublist
        ((sortedPairs population fitnesses).filter (fun p => decide (p.1 = q))) := by
      rw [← hcfix]
      exact List.Sublist.filter _ hstab
    have hperm : ((sortedPairs population fitnesses).filter
        (fun p => decide (p.1 = q))).Perm c := by
      have := List.mergeSort_perm (fitnesses.zip population)
        (fun a b : ℚ × Genome => decide (b.1 ≤ a.1))
      exact this.filter _
    exact ((hsub2.eq_of_length (hperm.length_eq.symm)).symm)

/-- Witness for C4 at a concrete population. -/
theorem c4_witness :
    (selection [[], []] [0, 1] 1).length = 1 ∧
    (∀ i j (hil : i < (sortedPairs [[], []] [0, 1]).length)
        (hjl : j < (sortedPairs [[], []] [0, 1]).length),
      i < 1 → 1 ≤ j →
      ((sortedPairs [[], []] [0, 1]).get ⟨j, hjl⟩).1 ≤
        ((sortedPairs [[], []] [0, 1]).get ⟨i, hil⟩).1) ∧
    (∀ q : ℚ,
      (sortedPairs [[], []] [0, 1]).filter (fun p => decide (p.1 = q)) =
        (([0, 1] : List ℚ).zip ([[], []] : List Genome)).filter
          (fun p => decide (p.1 = q))) :=
  c4_selection_top_k_stable [[], []] [0, 1] 1 (by decide) (by decide)

lemma foldl_max_run (xs : List ℚ) (x : ℚ) (b : WithBot ℚ) :
    xs.foldl wMax (max b ↑x) =
      max b ↑(xs.foldl max x) := by
  induction xs generalizing x b with
  | nil => rfl
  | cons y ys ih =>
    simp only [List.foldl_cons]
    have hstep : wMax (max b (x : WithBot ℚ)) y = max b ↑(max x y) := by
      rw [wMax, max_assoc, ← WithBot.coe_max]
    rw [hstep, ih]

lemma foldl_max_coe (fit : List ℚ) (m : ℚ) (hm : fit.max? = some m) (b : WithBot ℚ) :
    fit.foldl wMax b = max b ↑m := by
  cases fit with
  | nil => simp [List.max?] at hm
  | cons x xs =>
    have hm' : xs.foldl max x = m := by
      simpa [List.max?] using hm
    rw [List.foldl_cons, ← hm']
    exact foldl_max_run xs x b

lemma le_foldl_max (l : List ℚ) (b : WithBot ℚ) :
    b ≤ l.foldl wMax b := by
  induction l generalizing b with
  | nil => exact le_refl b
  | cons x xs ih =>
    rw [List.foldl_cons]
    exact le_trans (le_max_left b ↑x) (ih (max b ↑x))

lemma tracker_fold (l : List (List ℚ × List Genome))
    (h : ∀ g ∈ l, g.1 ≠ [] ∧ g.1.length = g.2.length)
    (b : WithBot ℚ × Option Genome) :
    ∃ s, l.foldlM (fun best g => generationStep best g.1 g.2) b = some s ∧
      s.1 = ((l.map Prod.fst).flatten).foldl wMax b.1 := by
  induction l generalizing b with
  | nil => exact ⟨b, rfl, rfl⟩
  | cons g rest ih =>
    obtain ⟨hne, hlen⟩ := h g (by simp)
    obtain ⟨m, hm⟩ : ∃ m, g.1.max? = some m := by
      cases hfit : g.1 with
      | nil => exact absurd hfit hne
      | cons x xs => exact ⟨xs.foldl max x, rfl⟩
    have hmem : m ∈ g.1 := List.max?_mem max_choice hm
    have hidx : g.1.indexOf m < g.2.length := by
      rw [← hlen]
      exact List.indexOf_lt_length.mpr hmem
    obtain ⟨arch, harch⟩ : ∃ a, g.2[g.1.indexOf m]? = some a :=
      ⟨_, List.getElem?_eq_getElem hidx⟩
    by_cases hgt : b.1 < (m : WithBot ℚ)
    · have hstep : generationStep b g.1 g.2 = some ((m : WithBot ℚ), some arch) := by
        simp [generationStep, hm, harch, hgt]
      obtain ⟨s, hs, hsval⟩ := ih (fun g' hg' => h g' (by simp [hg']))
        ((m : WithBot ℚ), some arch)
      refine ⟨s, by simp [List.foldlM_cons, hstep, hs], ?_⟩
      rw [hsval]
      have : ((m : WithBot ℚ)) = max b.1 ↑m := (max_eq_right hgt.le).symm
      rw [List.map_cons, List.flatten_cons, List.foldl_append,
        foldl_max_coe g.1 m hm b.1]
      exact this ▸ rfl
    · have hstep : generationStep b g.1 g.2 = some b := by
        simp [generationStep, hm, harch, hgt]
      obtain ⟨s, hs, hsval⟩ := ih (fun g' hg' => h g' (by simp [hg'])) b
      refine ⟨s, by simp [List.foldlM_cons, hstep, hs], ?_⟩
      rw [hsval]
      have : b.1 = max b.1 ↑m := (max_eq_left (not_lt.mp hgt)).symm
      rw [List.map_cons, List.flatten_cons, List.foldl_append,
        foldl_max_coe g.1 m hm b.1]
      exact this ▸ rfl

/-- C5: across the orchestrator's generation loop the best-overall tracker
never fails, after every generation `best_overall_fitness` equals the maximum
fitness observed in any generation processed so far (starting from
`-infinity`), and `best_overall_fitness` is non-decreasing from one processed
run segment to any longer one. -/
theorem c5_best_overall_tracks_running_max (gens : List (List ℚ × List Genome))
    (h : ∀ g ∈ gens, g.1 ≠ [] ∧ g.1.length = g.2.length) :
    (∀ pre rest, gens = pre ++ rest →
      ∃ s, runTracker pre = some s ∧ s.1 = maxFitSoFar pre) ∧
    (∀ pre₁ rest₁ pre₂ rest₂ s₁ s₂, gens = pre₁ ++ rest₁ → gens = pre₂ ++ rest₂ →
      pre₁.length ≤ pre₂.length →
      runTracker pre₁ = some s₁ → runTracker pre₂ = some s₂ → s₁.1 ≤ s₂.1) := by
  have hchar : ∀ pre rest, gens = pre ++ rest →
      ∃ s, runTracker pre = some s ∧ s.1 = maxFitSoFar pre := by
    intro pre rest hsplit
    have hpre : ∀ g ∈ pre, g.1 ≠ [] ∧ g.1.length = g.2.length := by
      intro g hg
      exact h g (by rw [hsplit]; exact List.mem_append_left rest hg)
    exact tracker_fold pre hpre ((⊥ : WithBot ℚ), none)
  refine ⟨hchar, ?_⟩
  intro pre₁ rest₁ pre₂ rest₂ s₁ s₂ h₁ h₂ hle hr₁ hr₂
  obtain ⟨u₁, hu₁, hv₁⟩ := hchar pre₁ rest₁ h₁
  obtain ⟨u₂, hu₂, hv₂⟩ := hchar pre₂ rest₂ h₂
  rw [hr₁] at hu₁
  rw [hr₂] at hu₂
  obtain rfl : s₁ = u₁ := Option.some.inj hu₁
  obtain rfl : s₂ = u₂ := Option.some.inj hu₂
  rw [hv₁, hv₂]
  have htake₁ : pre₁ = gens.take pre₁.length := by
    rw [h₁, List.take_left]
  have htake₂ : pre₂ = gens.take pre₂.length := by
    rw [h₂, List.take_left]
  have hp12 : pre₁ = pre₂.take pre₁.length := by
    rw [htake₂, List.take_take, min_eq_left hle, ← htake₁]
  have hsplit₂ : pre₂ = pre₁ ++ pre₂.drop pre₁.length := by
    conv_lhs => rw [← List.take_append_drop pre₁.length pre₂]
    rw [← hp12]
  rw [hsplit₂]
  unfold maxFitSoFar
  rw [List.map_append, List.flatten_append, List.foldl_append]
  exact le_foldl_max _ _

/-- Witness for C5 at a concrete one-generation run. -/
theorem c5_witness :
    (∀ pre rest, ([(([0] : List ℚ), ([[]] : List Genome))] : List (List ℚ × List Genome)) = pre ++ rest →
      ∃ s, runTracker pre = some s ∧ s.1 = maxFitSoFar pre) ∧
    (∀ pre₁ rest₁ pre₂ rest₂ s₁ s₂,
      ([(([0] : List ℚ), ([[]] : List Genome))] : List (List ℚ × List Genome)) = pre₁ ++ rest₁ →
      ([(([0] : List ℚ), ([[]] : List Genome))] : List (List ℚ × List Genome)) = pre₂ ++ rest₂ →
      pre₁.length ≤ pre₂.length →
      runTracker pre₁ = some s₁ → runTracker pre₂ = some s₂ → s₁.1 ≤ s₂.1) :=
  c5_best_overall_tracks_running_max [(([0] : List ℚ), ([[]] : List Genome))]
    (by intro g hg; rw [List.mem_singleton] at hg; subst hg; exact ⟨by simp, rfl⟩)

lemma foldl_batchStep_model {Model : Type} (forward : Model → List ℚ → List ℚ)
    (trainStep : Model → Batch → Model)
    (criterion : List (List ℚ) → List (List ℚ) → ℚ) :
    ∀ (L : List Batch) (p : Model × ℚ),
      (L.foldl (batchStep forward trainStep criterion) p).1 =
        L.foldl trainStep p.1 := by
  intro L
  induction L with
  | nil => intro p; rfl
  | cons b L ih =>
    intro p
    rw [List.foldl_cons, List.foldl_cons, ih]
    rfl

lemma trainOneEpoch_model {Model : Type} (forward : Model → List ℚ → List ℚ)
    (trainStep : Model → Batch → Model)
    (criterion : List (List ℚ) → List (List ℚ) → ℚ)
    {train_loader : List Batch} (hne : train_loader ≠ []) (m : Model) :
    ∃ el, trainOneEpoch forward trainStep criterion train_loader m =
      some (onePassModel trainStep train_loader m, el) := by
  have hlen : ¬ train_loader.length = 0 := by
    simpa [List.length_eq_zero] using hne
  refine ⟨(train_loader.foldl (batchStep forward trainStep criterion) (m, 0)).2, ?_⟩
  simp only [trainOneEpoch, if_neg hlen, onePassModel]
  exact congrArg some (Prod.ext_iff.mpr
    ⟨foldl_batchStep_model forward trainStep criterion train_loader (m, 0), rfl⟩)

lemma trainLoop_model {Model : Type} (forward : Model → List ℚ → List ℚ)
    (trainStep : Model → Batch → Model)
    (criterion : List (List ℚ) → List (List ℚ) → ℚ)
    {train_loader : List Batch} (hne : train_loader ≠ []) :
    ∀ (e : Nat) (st : Model × ℚ),
      ∃ tl, trainLoop forward trainStep criterion train_loader e st =
        some ((onePassModel trainStep train_loader)^[e] st.1, tl) := by
  intro e
  induction e with
  | zero =>
    intro st
    exact ⟨st.2, rfl⟩
  | succ n ih =>
    intro st
    obtain ⟨el, hep⟩ := trainOneEpoch_model forward trainStep criterion hne st.1
    obtain ⟨tl, hloop⟩ := ih (onePassModel trainStep train_loader st.1, st.2 + el)
    refine ⟨tl, ?_⟩
    rw [trainLoop]
    simp only [hep, Option.some_bind]
    exact hloop.trans (by rw [Function.iterate_succ_apply])

lemma evalCounts_le {Model : Type} (forward : Model → List ℚ → List ℚ)
    (model : Model) :
    ∀ (l : List Batch) (c t : Nat), c ≤ t →
      (evalCounts forward model l (c, t)).1 ≤ (evalCounts forward model l (c, t)).2 := by
  intro l
  induction l with
  | nil => intro c t h; exact h
  | cons batch rest ih =>
    intro c t h
    rw [evalCounts]
    apply ih
    have hcount :
        ((((batch.1.map (forward model)).map argmaxIdx).zip
          (batch.2.map argmaxIdx)).countP fun p => p.1 == p.2) ≤ batch.2.length := by
      calc ((((batch.1.map (forward model)).map argmaxIdx).zip
              (batch.2.map argmaxIdx)).countP fun p => p.1 == p.2)
          ≤ (((batch.1.map (forward model)).map argmaxIdx).zip
              (batch.2.map argmaxIdx)).length := List.countP_le_length _
        _ ≤ (batch.2.map argmaxIdx).length := by
            rw [List.length_zip]
            exact min_le_right _ _
        _ = batch.2.length := List.length_map _ _
    omega

lemma evalCounts_total {Model : Type} (forward : Model → List ℚ → List ℚ)
    (model : Model) :
    ∀ (l : List Batch) (c t : Nat),
      (evalCounts forward model l (c, t)).2 = t + (l.map fun b => b.2.length).sum := by
  intro l
  induction l with
  | nil => intro c t; simp [evalCounts]
  | cons batch rest ih =>
    intro c t
    rw [evalCounts, ih]
    simp
    omega

/-- C7 (amended): for a non-empty training loader and a validation loader
holding at least one sample, `compute_fitness` trains the freshly built
model for exactly `epochs` full passes over the training batches (the
evaluated model is the `epochs`-fold iterate of one full pass applied to
the fresh model), and returns `correct / total`, where `correct` counts the
validation samples whose predicted class (argmax of the model output)
equals the argmax of the one-hot target and `total` counts all validation
samples; since `0 ≤ correct ≤ total`, the returned fitness lies in `[0, 1]`.
The training loader must be non-empty: on an empty one the per-epoch
`epoch_loss / total_batches` log line divides by zero
(see `c7_counterexample`). -/
theorem c7_compute_fitness_accuracy (Model : Type)
    (netInit : Genome → Nat → Nat → Model) (trainStep : Model → Batch → Model)
    (forward : Model → List ℚ → List ℚ)
    (criterion : List (List ℚ) → List (List ℚ) → ℚ)
    (genome : Genome) (train_loader test_loader : List Batch) (epochs D K : Nat)
    (hne : train_loader ≠ [])
    (htot : 0 < (test_loader.map fun b => b.2.length).sum) :
    ∃ correct total : Nat,
      evalCounts forward
        ((onePassModel trainStep train_loader)^[epochs] (netInit genome D K))
        test_loader (0, 0) = (correct, total) ∧
      total = (test_loader.map fun b => b.2.length).sum ∧
      correct ≤ total ∧
      compute_fitness netInit trainStep forward criterion genome train_loader
        test_loader epochs D K = some ((correct : ℚ) / (total : ℚ)) ∧
      0 ≤ ((correct : ℚ) / (total : ℚ)) ∧ ((correct : ℚ) / (total : ℚ)) ≤ 1 := by
  obtain ⟨tl, hloop⟩ := trainLoop_model forward trainStep criterion hne epochs
    (netInit genome D K, 0)
  set trained := (onePassModel trainStep train_loader)^[epochs] (netInit genome D K)
    with htrained
  set counts := evalCounts forward trained test_loader (0, 0) with hcounts
  have htotal : counts.2 = (test_loader.map fun b => b.2.length).sum := by
    rw [hcounts, evalCounts_total]
    omega
  have hle : counts.1 ≤ counts.2 := by
    rw [hcounts]
    exact evalCounts_le forward trained test_loader 0 0 (le_refl 0)
  have htpos : 0 < counts.2 := by omega
  refine ⟨counts.1, counts.2, rfl, htotal, hle, ?_, ?_, ?_⟩
  · rw [compute_fitness]
    simp only [hloop, Option.bind_eq_bind, Option.some_bind]
    rw [← hcounts, if_neg (by omega)]
  · exact div_nonneg (Nat.cast_nonneg _) (Nat.cast_nonneg _)
  · rw [div_le_one (by exact_mod_cast htpos)]
    exact_mod_cast hle

/-- C7 counterexample: at an empty training loader with `epochs = 1` and a
one-sample validation loader, the claim's unconditional `correct / total`
return is false: the first epoch's `epoch_loss / total_batches` log line
divides by zero (`ZeroDivisionError`), so `compute_fitness` returns no
accuracy at all. -/
theorem c7_counterexample :
    compute_fitness (fun _ _ _ => ()) (fun (_ : Unit) _ => ()) (fun _ _ => [1, 0])
      (fun _ _ => 0) [] [] [([[1, 0]], [[0, 1]])] 1 2 2 = none := rfl

/-- Witness for C7 at a trivial model type, a one-batch training loader and
a one-sample validation set. -/
theorem c7_witness :
    ∃ correct total : Nat,
      evalCounts (fun _ _ => [1, 0])
        ((onePassModel (fun (_ : Unit) _ => ()) [([[1, 0]], [[0, 1]])])^[2] ())
        [([[1, 0]], [[0, 1]])] (0, 0) = (correct, total) ∧
      total = (([([[1, 0]], [[0, 1]])] : List Batch).map fun b => b.2.length).sum ∧
      correct ≤ total ∧
      compute_fitness (fun _ _ _ => ()) (fun (_ : Unit) _ => ()) (fun _ _ => [1, 0])
        (fun _ _ => 0) [] [([[1, 0]], [[0, 1]])] [([[1, 0]], [[0, 1]])] 2 2 2 =
        some ((correct : ℚ) / (total : ℚ)) ∧
      0 ≤ ((correct : ℚ) / (total : ℚ)) ∧ ((correct : ℚ) / (total : ℚ)) ≤ 1 :=
  c7_compute_fitness_accuracy Unit (fun _ _ _ => ()) (fun _ _ => ())
    (fun _ _ => [1, 0]) (fun _ _ => 0) [] [([[1, 0]], [[0, 1]])]
    [([[1, 0]], [[0, 1]])] 2 2 2 (by simp) (by simp)

lemma zip_cov {p1 p2 : Genome} (h1 : ∀ g ∈ p1, wfGene g) (h2 : ∀ g ∈ p2, wfGene g) :
    ∀ pq ∈ p1.zip p2, ∀ k ∈ pq.1.map Prod.fst, ∃ v, pq.2.lookup k = some v := by
  intro pq hpq k hk
  obtain ⟨hm1, hm2⟩ := List.of_mem_zip hpq
  have hkeys : k ∈ geneKeys := ((h1 pq.1 hm1).mem_iff).mp hk
  exact exists_lookup_of_mem_keys (wfGene_mem_keys (h2 pq.2 hm2) hkeys)

lemma crossover_wf_some (rng : RNG) (p1 p2 : Genome) (t : Nat)
    (h1 : ∀ g ∈ p1, wfGene g) (h2 : ∀ g ∈ p2, wfGene g) :
    ∃ child t', crossover rng p1 p2 t = (some child, t') := by
  obtain ⟨child, t', heq, -⟩ :=
    crossoverPairs_spec rng (p1.zip p2) t (zip_cov h1 h2)
  exact ⟨child, t', heq⟩

lemma sample2_spec (rng : RNG) {n : Nat} (h2 : 2 ≤ n) (t : Nat) :
    ∃ i j, sample2 rng n t = some ((i, j), t + 2) ∧ i < n ∧ j < n ∧ i ≠ j := by
  have hi : rng.idx t % n < n := Nat.mod_lt _ (by omega)
  have hj0 : rng.idx (t + 1) % (n - 1) < n - 1 := Nat.mod_lt _ (by omega)
  refine ⟨rng.idx t % n,
    if rng.idx (t + 1) % (n - 1) < rng.idx t % n
      then rng.idx (t + 1) % (n - 1) else rng.idx (t + 1) % (n - 1) + 1,
    ?_, hi, ?_, ?_⟩
  · rw [sample2, if_neg (by omega)]
  · by_cases hc : rng.idx (t + 1) % (n - 1) < rng.idx t % n <;> simp [hc] <;> omega
  · by_cases hc : rng.idx (t + 1) % (n - 1) < rng.idx t % n <;> simp [hc] <;> omega

lemma getD_mem_of_lt {α : Type} {l : List α} {i : Nat} {d : α} (h : i < l.length) :
    l.getD i d ∈ l := by
  rw [List.getD_eq_getElem _ _ h]
  exact List.getElem_mem h

lemma breedLoop_spec (rng : RNG) (parents : List Genome) (psize : Nat)
    (h2 : 2 ≤ parents.length)
    (hwf : ∀ g ∈ parents, ∀ gene ∈ g, wfGene gene) :
    ∀ fuel acc t, psize - acc.length ≤ fuel →
      ∃ next t', breedLoop rng parents psize acc t = some (next, t') ∧
        ∃ suffix, next = acc ++ suffix ∧ next.length = max acc.length psize ∧
          ∀ c ∈ suffix, bredFrom rng parents c := by
  intro fuel
  induction fuel with
  | zero =>
    intro acc t hfuel
    have hge : ¬ acc.length < psize := by omega
    refine ⟨acc, t, ?_, [], by simp, by omega, by simp⟩
    rw [breedLoop, dif_neg hge]
  | succ n ih =>
    intro acc t hfuel
    by_cases hlt : acc.length < psize
    · obtain ⟨i, j, hs, hi, hj, hij⟩ := sample2_spec rng h2 t
      obtain ⟨child0, t₂, hcross⟩ := crossover_wf_some rng
        (parents.getD i []) (parents.getD j []) (t + 2)
        (hwf _ (getD_mem_of_lt hi)) (hwf _ (getD_mem_of_lt hj))
      obtain ⟨next, t', heq, suffix, hsplit, hlen, hbred⟩ :=
        ih (acc ++ [(mutate rng child0 t₂).1]) ((mutate rng child0 t₂).2)
          (by simp; omega)
      refine ⟨next, t', ?_, (mutate rng child0 t₂).1 :: suffix, ?_, ?_, ?_⟩
      · rw [breedLoop, dif_pos hlt]
        simp only [hs, hcross]
        exact heq
      · rw [hsplit]; simp
      · rw [hlen]
        simp only [List.length_append, List.length_singleton]
        omega
      · intro c hc
        rcases List.mem_cons.mp hc with rfl | hc'
        · exact ⟨i, j, t + 2, t₂, child0, hi, hj, hij, hcross, rfl⟩
        · exact hbred c hc'
    · have hge : ¬ acc.length < psize := hlt
      refine ⟨acc, t, ?_, [], by simp, by omega, by simp⟩
      rw [breedLoop, dif_neg hge]

/-- C6: with `2 ≤ num_parents = len(parents) ≤ population_size` and
well-formed parent genes, the Breed step succeeds and produces a next
population of size exactly `population_size` whose first `num_parents`
elements are the selected parents carried over verbatim (elitism), followed
by children, each the mutation of a crossover of two parents sampled at
distinct positions for that child. -/
theorem c6_breed_elitism_and_children (rng : RNG) (parents : List Genome)
    (population_size t num_parents : Nat) (hnp : num_parents = parents.length)
    (h2 : 2 ≤ num_parents) (hsz : num_parents ≤ population_size)
    (hwf : ∀ g ∈ parents, ∀ gene ∈ g, wfGene gene) :
    ∃ next t', nextGeneration rng parents population_size t = some (next, t') ∧
      next.length = population_size ∧
      next.take num_parents = parents ∧
      ∀ c ∈ next.drop num_parents, bredFrom rng parents c := by
  subst hnp
  obtain ⟨next, t', heq, suffix, hsplit, hlen, hbred⟩ :=
    breedLoop_spec rng parents population_size h2 hwf
      (population_size - parents.length) parents t (le_refl _)
  subst hsplit
  refine ⟨parents ++ suffix, t', heq, ?_, ?_, ?_⟩
  · rw [hlen]; omega
  · exact List.take_left parents suffix
  · intro c hc
    rw [List.drop_left] at hc
    exact hbred c hc

/-- Witness for C6 at a concrete pair of parents. -/
theorem c6_witness :
    ∃ next t', nextGeneration ⟨fun _ => true, fun _ => 1, fun _ => 0⟩
        [[[("num_neurons", .nat 8), ("activation", .str "relu"),
            ("dropout_rate", .vnone)]],
          [[("num_neurons", .nat 16), ("activation", .str "tanh"),
            ("dropout_rate", .vnone)]]] 3 0 = some (next, t') ∧
      next.length = 3 ∧
      next.take 2 =
        [[[("num_neurons", .nat 8), ("activation", .str "relu"),
            ("dropout_rate", .vnone)]],
          [[("num_neurons", .nat 16), ("activation", .str "tanh"),
            ("dropout_rate", .vnone)]]] ∧
      ∀ c ∈ next.drop 2,
        bredFrom ⟨fun _ => true, fun _ => 1, fun _ => 0⟩
          [[[("num_neurons", .nat 8), ("activation", .str "relu"),
              ("dropout_rate", .vnone)]],
            [[("num_neurons", .nat 16), ("activation", .str "tanh"),
              ("dropout_rate", .vnone)]]] c :=
  c6_breed_elitism_and_children ⟨fun _ => true, fun _ => 1, fun _ => 0⟩
    [[[("num_neurons", .nat 8), ("activation", .str "relu"),
        ("dropout_rate", .vnone)]],
      [[("num_neurons", .nat 16), ("activation", .str "tanh"),
        ("dropout_rate", .vnone)]]] 3 0 2 (by decide) (by decide) (by decide)
    (by decide)

lemma crossoverH_spec (rng : RNG) :
    ∀ (pairs : List (Nat × Nat)) (store : Store) (t : Nat),
      (∀ pr ∈ pairs, ∃ g1 g2, store[pr.1]? = some g1 ∧ store[pr.2]? = some g2 ∧
        wfGene g1 ∧ wfGene g2) →
      ∃ store' addrs t', crossoverH rng store pairs t = some (store', addrs, t') ∧
        store.length ≤ store'.length ∧
        (∀ b, b < store.length → store'[b]? = store[b]?) ∧
        ∀ a ∈ addrs, store.length ≤ a ∧ a < store'.length := by
  intro pairs
  induction pairs with
  | nil =>
    intro store t _
    exact ⟨store, [], t, rfl, le_refl _, fun b _ => rfl, by simp⟩
  | cons pr rest ih =>
    intro store t hp
    obtain ⟨pa, pb⟩ := pr
    obtain ⟨g1, g2, h1, h2, hw1, hw2⟩ := hp (pa, pb) (by simp)
    have hcov : ∀ k ∈ g1.map Prod.fst, ∃ v, g2.lookup k = some v := by
      intro k hk
      exact exists_lookup_of_mem_keys (wfGene_mem_keys hw2 ((hw1.mem_iff).mp hk))
    obtain ⟨cg, tg, hcg, -, -⟩ := crossoverGene_spec rng g2 g1 t hcov
    have hp' : ∀ pr' ∈ rest, ∃ ga gb, (store ++ [cg])[pr'.1]? = some ga ∧
        (store ++ [cg])[pr'.2]? = some gb ∧ wfGene ga ∧ wfGene gb := by
      intro pr' hpr'
      obtain ⟨ga, gb, ha, hb, hwa, hwb⟩ := hp pr' (by simp [hpr'])
      have hlta : pr'.1 < store.length := (List.getElem?_eq_some.mp ha).1
      have hltb : pr'.2 < store.length := (List.getElem?_eq_some.mp hb).1
      refine ⟨ga, gb, ?_, ?_, hwa, hwb⟩
      · rw [List.getElem?_append_left hlta]; exact ha
      · rw [List.getElem?_append_left hltb]; exact hb
    obtain ⟨store', addrs, t'', heq, hle, hframe, hfresh⟩ := ih (store ++ [cg]) tg hp'
    have hlen1 : (store ++ [cg]).length = store.length + 1 := by simp
    refine ⟨store', store.length :: addrs, t'', ?_, by omega, ?_, ?_⟩
    · rw [crossoverH]
      simp only [h1, h2, hcg, heq]
    · intro b hb
      rw [hframe b (by omega), List.getElem?_append_left hb]
    · intro a ha
      rcases List.mem_cons.mp ha with rfl | ha'
      · exact ⟨le_refl _, by omega⟩
      · obtain ⟨h₁, h₂⟩ := hfresh a ha'
        exact ⟨by omega, h₂⟩

lemma mutateH_spec (rng : RNG) :
    ∀ (addrs : List Nat) (store : Store) (t : Nat),
      (∀ a ∈ addrs, a < store.length) →
      ∃ store' t', mutateH rng store addrs t = some (store', t') ∧
        store'.length = store.length ∧
        ∀ b, b ∉ addrs → store'[b]? = store[b]? := by
  intro addrs
  induction addrs with
  | nil =>
    intro store t _
    exact ⟨store, t, rfl, rfl, fun b _ => rfl⟩
  | cons a rest ih =>
    intro store t h
    have ha : a < store.length := h a (by simp)
    obtain ⟨gene, hg⟩ : ∃ g, store[a]? = some g := ⟨_, List.getElem?_eq_getElem ha⟩
    by_cases hc : rng.flt t < 1/10
    · obtain ⟨store', t', heq, hlen, hframe⟩ :=
        ih (store.set a (mutateGeneKeys rng gene (t + 1)).1)
          ((mutateGeneKeys rng gene (t + 1)).2)
          (fun b hb => by rw [List.length_set]; exact h b (by simp [hb]))
      refine ⟨store', t', ?_, by rw [hlen, List.length_set], ?_⟩
      · rw [mutateH]
        simp only [hg, hc, if_pos]
        exact heq
      · intro b hb
        have hbne : a ≠ b := fun hab => hb (hab ▸ List.mem_cons_self a rest)
        have hbrest : b ∉ rest := fun hbr => hb (List.mem_cons_of_mem a hbr)
        rw [hframe b hbrest, List.getElem?_set_ne hbne]
    · obtain ⟨store', t', heq, hlen, hframe⟩ := ih store (t + 1)
        (fun b hb => h b (by simp [hb]))
      refine ⟨store', t', ?_, hlen, ?_⟩
      · rw [mutateH]
        simp only [hg, hc, if_neg]
        exact heq
      · intro b hb
        exact hframe b (fun hbr => hb (List.mem_cons_of_mem a hbr))

lemma breedLoopH_spec (rng : RNG) (parents : List (List Nat)) (psize : Nat)
    (store₀ : Store) (h2 : 2 ≤ parents.length)
    (hpar : ∀ p ∈ parents, ∀ a ∈ p, a < store₀.length)
    (hwfg : ∀ p ∈ parents, ∀ a ∈ p, ∃ g, store₀[a]? = some g ∧ wfGene g) :
    ∀ fuel (store : Store) acc t,
      psize - acc.length ≤ fuel →
      store₀.length ≤ store.length →
      (∀ b, b < store₀.length → store[b]? = store₀[b]?) →
      ∃ store' next t',
        breedLoopH rng parents psize store acc t = some (store', next, t') ∧
        store₀.length ≤ store'.length ∧
        (∀ b, b < store₀.length → store'[b]? = store₀[b]?) ∧
        ∃ suffix, next = acc ++ suffix ∧
          next.length = max acc.length psize ∧
          ∀ cr ∈ suffix, ∀ a ∈ cr, store₀.length ≤ a := by
  intro fuel
  induction fuel with
  | zero =>
    intro store acc t hfuel hlen hframe
    have hge : ¬ acc.length < psize := by omega
    refine ⟨store, acc, t, ?_, hlen, hframe, [], by simp, by omega, by simp⟩
    rw [breedLoopH, dif_neg hge]
  | succ n ih =>
    intro store acc t hfuel hlen hframe
    by_cases hlt : acc.length < psize
    · obtain ⟨i, j, hs, hi, hj, hij⟩ := sample2_spec rng h2 t
      have hpi : parents.getD i [] ∈ parents := getD_mem_of_lt hi
      have hpj : parents.getD j [] ∈ parents := getD_mem_of_lt hj
      have hpairs : ∀ pr ∈ (parents.getD i []).zip (parents.getD j []),
          ∃ g1 g2, store[pr.1]? = some g1 ∧ store[pr.2]? = some g2 ∧
            wfGene g1 ∧ wfGene g2 := by
        intro pr hpr
        obtain ⟨hm1, hm2⟩ := List.of_mem_zip hpr
        obtain ⟨g1, hg1, hw1⟩ := hwfg _ hpi _ hm1
        obtain ⟨g2, hg2, hw2⟩ := hwfg _ hpj _ hm2
        have hb1 : pr.1 < store₀.length := hpar _ hpi _ hm1
        have hb2 : pr.2 < store₀.length := hpar _ hpj _ hm2
        exact ⟨g1, g2, by rw [hframe _ hb1]; exact hg1,
          by rw [hframe _ hb2]; exact hg2, hw1, hw2⟩
      obtain ⟨store₁, childAddrs, t₂, hceq, hclen, hcframe, hcfresh⟩ :=
        crossoverH_spec rng _ store (t + 2) hpairs
      obtain ⟨store₂, t₃, hmeq, hmlen, hmframe⟩ := mutateH_spec rng childAddrs
        store₁ t₂ (fun a ha => (hcfresh a ha).2)
      have hframe₂ : ∀ b, b < store₀.length → store₂[b]? = store₀[b]? := by
        intro b hb
        have hbn : b ∉ childAddrs := by
          intro hbc
          have := (hcfresh b hbc).1
          omega
        rw [hmframe b hbn, hcframe b (by omega), hframe b hb]
      obtain ⟨store', next, t', heq, hle', hframe', suffix, hsplit, hlen', hsuf⟩ :=
        ih store₂ (acc ++ [childAddrs]) t₃ (by simp; omega) (by omega) hframe₂
      refine ⟨store', next, t', ?_, hle', hframe', childAddrs :: suffix, ?_, ?_, ?_⟩
      · rw [breedLoopH, dif_pos hlt]
        simp only [hs, hceq, hmeq]
        exact heq
      · rw [hsplit]; simp
      · rw [hlen']
        simp only [List.length_append, List.length_singleton]
        omega
      · intro cr hcr
        rcases List.mem_cons.mp hcr with rfl | hcr'
        · intro a ha
          have := (hcfresh a ha).1
          omega
        · exact hsuf cr hcr'
    · refine ⟨store, acc, t, ?_, hlen, hframe, [], by simp, by omega, by simp⟩
      rw [breedLoopH, dif_neg hlt]

/-- C9: breeding never modifies the selected parents.  In the heap model,
`crossover` builds its child out of freshly allocated gene dicts — every
child address lies beyond every pre-existing cell, so no gene object is
shared with a parent — and `mutate` overwrites only those fresh dicts, so
after the entire breeding loop every pre-existing heap cell, in particular
every gene dict of every parent carried verbatim into the next generation,
holds exactly its old value. -/
theorem c9_breeding_preserves_parent_dicts (rng : RNG) (store : Store)
    (parents : List (List Nat)) (population_size t : Nat)
    (h2 : 2 ≤ parents.length) (hsz : parents.length ≤ population_size)
    (hval : ∀ p ∈ parents, ∀ a ∈ p, a < store.length)
    (hwfg : ∀ p ∈ parents, ∀ a ∈ p, ∃ g, store[a]? = some g ∧ wfGene g) :
    ∃ store' next t',
      breedLoopH rng parents population_size store parents t =
        some (store', next, t') ∧
      (∀ b, b < store.length → store'[b]? = store[b]?) ∧
      next.take parents.length = parents ∧
      next.length = population_size ∧
      ∀ cr ∈ next.drop parents.length, ∀ a ∈ cr, store.length ≤ a := by
  obtain ⟨store', next, t', heq, hle, hframe, suffix, hsplit, hlen, hsuf⟩ :=
    breedLoopH_spec rng parents population_size store h2 hval hwfg
      (population_size - parents.length) store parents t (le_refl _) (le_refl _)
      (fun b _ => rfl)
  subst hsplit
  refine ⟨store', parents ++ suffix, t', heq, hframe,
    List.take_left parents suffix, ?_, ?_⟩
  · rw [hlen]
    omega
  · intro cr hcr
    rw [List.drop_left] at hcr
    exact hsuf cr hcr

/-- Witness for C9 at a concrete two-parent heap. -/
theorem c9_witness :
    ∃ store' next t',
      breedLoopH ⟨fun _ => true, fun _ => 1, fun _ => 0⟩ [[0], [1]] 3
        [[("num_neurons", .nat 8), ("activation", .str "relu"),
          ("dropout_rate", .vnone)],
         [("num_neurons", .nat 16), ("activation", .str "tanh"),
          ("dropout_rate", .vnone)]] [[0], [1]] 0 = some (store', next, t') ∧
      (∀ b, b < ([[("num_neurons", Value.nat 8), ("activation", Value.str "relu"),
          ("dropout_rate", Value.vnone)],
         [("num_neurons", Value.nat 16), ("activation", Value.str "tanh"),
          ("dropout_rate", Value.vnone)]] : Store).length →
        store'[b]? = ([[("num_neurons", Value.nat 8), ("activation", Value.str "relu"),
          ("dropout_rate", Value.vnone)],
         [("num_neurons", Value.nat 16), ("activation", Value.str "tanh"),
          ("dropout_rate", Value.vnone)]] : Store)[b]?) ∧
      next.take 2 = [[0], [1]] ∧
      next.length = 3 ∧
      ∀ cr ∈ next.drop 2, ∀ a ∈ cr,
        ([[("num_neurons", Value.nat 8), ("activation", Value.str "relu"),
          ("dropout_rate", Value.vnone)],
         [("num_neurons", Value.nat 16), ("activation", Value.str "tanh"),
          ("dropout_rate", Value.vnone)]] : Store).length ≤ a :=
  c9_breeding_preserves_parent_dicts ⟨fun _ => true, fun _ => 1, fun _ => 0⟩
    [[("num_neurons", .nat 8), ("activation", .str "relu"),
      ("dropout_rate", .vnone)],
     [("num_neurons", .nat 16), ("activation", .str "tanh"),
      ("dropout_rate", .vnone)]] [[0], [1]] 3 0 (by decide) (by decide) (by decide)
    (by
      intro p hp a ha
      rcases List.mem_cons.mp hp with rfl | hp'
      · rcases List.mem_singleton.mp ha with rfl
        exact ⟨[("num_neurons", .nat 8), ("activation", .str "relu"),
          ("dropout_rate", .vnone)], rfl, by decide⟩
      · rcases List.mem_singleton.mp hp' with rfl
        rcases List.mem_singleton.mp ha with rfl
        exact ⟨[("num_neurons", .nat 16), ("activation", .str "tanh"),
          ("dropout_rate", .vnone)], rfl, by decide⟩)
